import Mathlib

/-!
Shallow embedding of the `quicksave` web application's persistence core
(`src/quicksave/app/main.py`): the SQLite-backed `users` / `items` tables,
the startup user reconciliation `load_users_from_env`, the item-saving
helpers `save_item`, `add_note` and `handle_upload`.

Modelling notes, traceable to the source:
* The database rows are modelled as Lean structures; `AUTOINCREMENT`
  surrogate keys are modelled by `nextUserId` / `nextItemId` counters that
  only ever grow.
* `init_db` declares `username TEXT UNIQUE NOT NULL`, so theorems about a
  populated store assume pairwise-distinct usernames.
* `init_db` declares `FOREIGN KEY (user_id) REFERENCES users (id)` on
  `items`, but the Python `sqlite3` module leaves `PRAGMA foreign_keys`
  OFF by default and the application never turns it on, so the constraint
  is *not* enforced at run time: `save_item` inserts unconditionally.
  The model reproduces that run-time behaviour.
* `werkzeug.security.generate_password_hash` / `check_password_hash` are
  an external library; they are modelled by a deterministic pair with the
  library's contract: a generated hash verifies exactly the password it
  was generated from.
* Byte strings are modelled as `List Nat`; Python's `str.encode('utf-8')`
  is modelled by an explicit UTF-8 encoder on code points.
-/

/-- A row of the `users` table (`id`, `username`, `password_hash`). -/
structure UserRec where
  id : Nat
  username : String
  password_hash : String
deriving Repr, DecidableEq

/-- A row of the `items` table. `created_at` (a wall-clock default) is not
modelled; no claim mentions it. -/
structure ItemRec where
  id : Nat
  user_id : Nat
  itemType : String
  content : List Nat
deriving Repr, DecidableEq

/-- The persistent state of `data/quicksave.db`: both tables plus the next
`AUTOINCREMENT` value of each one. -/
structure DBState where
  users : List UserRec
  items : List ItemRec
  nextUserId : Nat
  nextItemId : Nat
deriving Repr, DecidableEq

/-- The state right after `init_db` on a fresh database: both tables empty,
SQLite's `AUTOINCREMENT` counters starting at 1. -/
def initialState : DBState := ⟨[], [], 1, 1⟩

/-- Model of `werkzeug.security.generate_password_hash` (external library):
deterministic stand-in for a salted one-way hash. -/
def generate_password_hash (password : String) : String :=
  "pbkdf2$" ++ password

/-- Model of `werkzeug.security.check_password_hash` (external library):
verification succeeds exactly on the password the hash was generated from,
which is the library's contract. -/
def check_password_hash (stored : String) (password : String) : Bool :=
  stored == generate_password_hash password

/-- `INSERT INTO users (username, password_hash) VALUES (?, ?)`
(main.py line 117). -/
def insertUser (st : DBState) (username password_hash : String) : DBState :=
  { st with
      users := st.users ++ [⟨st.nextUserId, username, password_hash⟩],
      nextUserId := st.nextUserId + 1 }

/-- `UPDATE users SET password_hash = ? WHERE username = ?`
(main.py line 120). -/
def updateUserHash (st : DBState) (username password_hash : String) : DBState :=
  { st with
      users := st.users.map fun r =>
        if r.username == username then { r with password_hash := password_hash } else r }

/-- `DELETE FROM users WHERE username = ?` (main.py line 126). -/
def deleteUser (st : DBState) (username : String) : DBState :=
  { st with users := st.users.filter fun r => r.username != username }

/-- One mutation performed by the reconciliation loop, mirroring the three
SQL statements it can execute. -/
inductive UserOp where
  | create (username password_hash : String)
  | setHash (username password_hash : String)
  | delete (username : String)
deriving Repr, DecidableEq

/-- First loop of `load_users_from_env` (main.py lines 114-121): for each
declared `(username, password)` in order, insert the user if absent from
the `db_users` snapshot, else overwrite the hash when the declared password
does not verify against the snapshot's stored hash.  Returns the new state
together with the list of mutations performed. -/
def syncDeclared (snapshot : List UserRec) :
    List (String × String) → DBState → DBState × List UserOp
  | [], st => (st, [])
  | (username, password) :: rest, st =>
    let password_hash := generate_password_hash password
    match snapshot.find? (fun r => r.username == username) with
    | none =>
      let next := syncDeclared snapshot rest (insertUser st username password_hash)
      (next.1, .create username password_hash :: next.2)
    | some r0 =>
      if check_password_hash r0.password_hash password then
        syncDeclared snapshot rest st
      else
        let next := syncDeclared snapshot rest (updateUserHash st username password_hash)
        (next.1, .setHash username password_hash :: next.2)

/-- Second loop of `load_users_from_env` (main.py lines 124-127): delete
every snapshot user whose username is not a declared key. -/
def purgeAbsent (declared : List (String × String)) :
    List UserRec → DBState → DBState × List UserOp
  | [], st => (st, [])
  | r :: rest, st =>
    if declared.any (fun kv => kv.1 == r.username) then
      purgeAbsent declared rest st
    else
      let next := purgeAbsent declared rest (deleteUser st r.username)
      (next.1, .delete r.username :: next.2)

/-- The database half of `load_users_from_env` (main.py lines 106-129),
which the spec calls `reconcile(declaredUsers)`: snapshot the `users`
table, run the create/update loop over the declared map, then the delete
loop over the snapshot. -/
def reconcile (declared : List (String × String)) (st : DBState) :
    DBState × List UserOp :=
  let snapshot := st.users
  let r1 := syncDeclared snapshot declared st
  let r2 := purgeAbsent declared snapshot r1.1
  (r2.1, r1.2 ++ r2.2)

/-- Python `user_var.split(':', 1)`: the part before the first colon and
everything after it. -/
def splitColon (s : String) : String × String :=
  (⟨s.data.takeWhile (fun c => c != ':')⟩,
   ⟨(s.data.dropWhile (fun c => c != ':')).drop 1⟩)

/-- Python dict assignment `env_users[username] = password`: replace the
value in place if the key exists, else append. -/
def dictInsert (key value : String) (d : List (String × String)) :
    List (String × String) :=
  if d.any (fun kv => kv.1 == key) then
    d.map fun kv => if kv.1 == key then (key, value) else kv
  else
    d ++ [(key, value)]

/-- Body of the parsing loop of `load_users_from_env` (main.py lines
100-104) for one index: an unset entry or one without a colon contributes
nothing; otherwise split on the first colon and assign into the dict. -/
def parseEnvStep (acc : List (String × String)) :
    Option String → List (String × String)
  | none => acc
  | some v =>
    if v.data.contains ':' then
      let (username, password) := splitColon v
      dictInsert username password acc
    else acc

/-- The parsing loop of `load_users_from_env` (main.py lines 99-104),
iterating over the given environment indices. -/
def parseEnvLoop (env : Nat → Option String) :
    List Nat → List (String × String) → List (String × String)
  | [], acc => acc
  | i :: rest, acc => parseEnvLoop env rest (parseEnvStep acc (env i))

/-- `env_users` as built by main.py lines 99-104: `USER_1` .. `USER_10`,
split on the first colon when present. -/
def parseEnvUsers (env : Nat → Option String) : List (String × String) :=
  parseEnvLoop env ((List.range 10).map (· + 1)) []

/-- `load_users_from_env` (main.py lines 92-129): parse the declared users
out of the environment, then reconcile the database against them. -/
def load_users_from_env (env : Nat → Option String) (st : DBState) :
    DBState × List UserOp :=
  reconcile (parseEnvUsers env) st

/-- `save_item` (main.py lines 211-218): an unconditional `INSERT INTO
items`.  The `FOREIGN KEY` clause of `init_db` is not enforced because the
connection never executes `PRAGMA foreign_keys = ON`, so the insert
succeeds even when `user_id` matches no row of `users`. -/
def save_item (st : DBState) (user_id : Nat) (item_type : String)
    (content : List Nat) : DBState :=
  { st with
      items := st.items ++ [⟨st.nextItemId, user_id, item_type, content⟩],
      nextItemId := st.nextItemId + 1 }

/-- The characters stripped by Python's `str.strip()` with no argument:
CPython's `Py_UNICODE_ISSPACE` set — the ASCII range U+0009..U+000D, the
file/group/record/unit separators and space U+001C..U+0020, next line
U+0085, no-break space U+00A0, Ogham space mark U+1680, the Unicode space
separators U+2000..U+200A, line separator U+2028, paragraph separator
U+2029, narrow no-break space U+202F, medium mathematical space U+205F,
and ideographic space U+3000. -/
def isPySpace (c : Char) : Bool :=
  (9 ≤ c.toNat && c.toNat ≤ 13) || (28 ≤ c.toNat && c.toNat ≤ 32) ||
    c.toNat == 133 || c.toNat == 160 || c.toNat == 5760 ||
    (8192 ≤ c.toNat && c.toNat ≤ 8202) ||
    c.toNat == 8232 || c.toNat == 8233 || c.toNat == 8239 ||
    c.toNat == 8287 || c.toNat == 12288

/-- Python `s.strip()`: drop leading and trailing whitespace. -/
def pyStrip (s : String) : String :=
  ⟨((s.data.dropWhile isPySpace).reverse.dropWhile isPySpace).reverse⟩

/-- UTF-8 encoding of one Unicode code point, as Python's
`str.encode('utf-8')` produces it (1 to 4 bytes by code-point range). -/
def pyUtf8EncodeChar (v : Nat) : List Nat :=
  if v < 128 then [v]
  else if v < 2048 then [192 + v / 64, 128 + v % 64]
  else if v < 65536 then [224 + v / 4096, 128 + v / 64 % 64, 128 + v % 64]
  else [240 + v / 262144, 128 + v / 4096 % 64, 128 + v / 64 % 64, 128 + v % 64]

/-- Python `content.encode('utf-8')` (main.py line 229). -/
def pyUtf8Encode (s : String) : List Nat :=
  (s.data.map fun c => pyUtf8EncodeChar c.toNat).flatten

/-- UTF-8 decoding back to code points, one byte at a time (the inverse
direction of `str.encode('utf-8')`, i.e. what Python's
`bytes.decode('utf-8')` computes on the well-formed encodings this
application stores).  State `none` expects a lead byte; `some (need, acc)`
is mid-character with `need` continuation bytes outstanding and `acc` the
code point accumulated so far. -/
def pyUtf8DecodeAux : Option (Nat × Nat) → List Nat → Option (List Nat)
  | none, [] => some []
  | some _, [] => none
  | none, b :: bs =>
    if b < 128 then (pyUtf8DecodeAux none bs).map (b :: ·)
    else if b < 224 then pyUtf8DecodeAux (some (1, b - 192)) bs
    else if b < 240 then pyUtf8DecodeAux (some (2, b - 224)) bs
    else pyUtf8DecodeAux (some (3, b - 240)) bs
  | some (need, acc), b :: bs =>
    if need ≤ 1 then (pyUtf8DecodeAux none bs).map ((acc * 64 + (b - 128)) :: ·)
    else pyUtf8DecodeAux (some (need - 1, acc * 64 + (b - 128))) bs

/-- Decoding a whole byte string from the initial state. -/
def pyUtf8Decode (l : List Nat) : Option (List Nat) :=
  pyUtf8DecodeAux none l

/-- Result of the `add_note` route: redirect to login, the error fragment,
or the success fragment (main.py lines 220-230). -/
inductive NoteResult where
  | redirect
  | validationError (msg : String)
  | saved (msg : String)
deriving Repr, DecidableEq

/-- `add_note` (main.py lines 220-230): redirect when not logged in, the
error fragment when the content is empty or strips to empty, otherwise
insert the UTF-8 encoded content as a `note` item. -/
def add_note (st : DBState) (session_user : Option Nat) (content : String) :
    DBState × NoteResult :=
  match session_user with
  | none => (st, .redirect)
  | some user_id =>
    if content == "" || pyStrip content == "" then
      (st, .validationError "Note content cannot be empty.")
    else
      (save_item st user_id "note" (pyUtf8Encode content),
       .saved "Note saved successfully!")

/-- `MAX_FILE_SIZE = 50 * 1024 * 1024` (main.py line 241). -/
def MAX_FILE_SIZE : Nat := 50 * 1024 * 1024

/-- The size-limit error message of main.py line 246, with the limit
interpolated exactly as the f-string computes it. -/
def sizeLimitMsg : String :=
  s!"File exceeds the {MAX_FILE_SIZE / 1024 / 1024}MB size limit."

/-- An uploaded file as `handle_upload` consumes it: a filename plus the
successive chunks returned by `await file.read(8192)`.  An empty chunk is
how the transport signals end of stream. -/
structure UploadStream where
  filename : String
  chunks : List (List Nat)
deriving Repr, DecidableEq

/-- The accumulation loop of `handle_upload` (main.py lines 242-246):
`while chunk := await file.read(8192)` extend the buffer and fail as soon
as it exceeds `MAX_FILE_SIZE`.  Returns the error (if any), the buffer at
loop exit, and the chunks the loop never pulled from the stream. -/
def readChunks (buf : List Nat) :
    List (List Nat) → Option String × List Nat × List (List Nat)
  | [] => (none, buf, [])
  | chunk :: rest =>
    if chunk.isEmpty then
      (none, buf, rest)
    else
      let buf' := buf ++ chunk
      if buf'.length > MAX_FILE_SIZE then
        (some sizeLimitMsg, buf', rest)
      else
        readChunks buf' rest

/-- ASCII uppercasing of one character, as Python `str.upper` does on
ASCII input. -/
def pyAsciiUpper (c : Char) : Char :=
  if 97 ≤ c.toNat ∧ c.toNat ≤ 122 then Char.ofNat (c.toNat - 32) else c

/-- ASCII lowercasing of one character, as Python `str.lower` does on
ASCII input. -/
def pyAsciiLower (c : Char) : Char :=
  if 65 ≤ c.toNat ∧ c.toNat ≤ 90 then Char.ofNat (c.toNat + 32) else c

/-- Python `s.capitalize()` on ASCII text: first character uppercased, the
rest lowercased. -/
def pyCapitalize (s : String) : String :=
  match s.data with
  | [] => ""
  | c :: rest => ⟨pyAsciiUpper c :: rest.map pyAsciiLower⟩

/-- A single-quote character as a string (kept out of string literals). -/
def squote : String := ⟨[Char.ofNat 39]⟩

/-- The success fragment of main.py line 249:
`f"{item_type.capitalize()} '{file.filename}' saved successfully!"`. -/
def uploadSavedMsg (item_type filename : String) : String :=
  pyCapitalize item_type ++ " " ++ squote ++ filename ++ squote ++
    " saved successfully!"

/-- Result of an upload route: redirect to login, a validation-error
fragment, or the success fragment (main.py lines 232-249). -/
inductive UploadOutcome where
  | redirect
  | validationError (msg : String)
  | saved (msg : String)
deriving Repr, DecidableEq

/-- `handle_upload` (main.py lines 232-249): redirect when not logged in,
error when no file or an empty filename was supplied, otherwise run the
bounded accumulation loop and either report the size error (dropping the
buffer) or save the accumulated bytes as an item. -/
def handle_upload (st : DBState) (session_user : Option Nat)
    (file : Option UploadStream) (item_type : String) : DBState × UploadOutcome :=
  match session_user with
  | none => (st, .redirect)
  | some user_id =>
    match file with
    | none => (st, .validationError "File not provided.")
    | some f =>
      if f.filename == "" then
        (st, .validationError "File not provided.")
      else
        match readChunks [] f.chunks with
        | (some msg, _, _) => (st, .validationError msg)
        | (none, content, _) =>
          (save_item st user_id item_type content,
           .saved (uploadSavedMsg item_type f.filename))

/-- All rows of a user list carrying the given username (the rows SQL's
`WHERE username = ?` touches). -/
def usersWith (users : List UserRec) (u : String) : List UserRec :=
  users.filter fun r => r.username == u

/-- Whether some row carries the given username. -/
def hasUsername (users : List UserRec) (u : String) : Bool :=
  users.any fun r => r.username == u

/-- Whether the declared map has the given username as a key. -/
def declaresName (d : List (String × String)) (u : String) : Bool :=
  d.any fun kv => kv.1 == u

example : splitColon "alice:pw:x" = ("alice", "pw:x") := by decide

example :
    parseEnvUsers (fun i => if i = 3 then some "alice:pw1" else none) =
      [("alice", "pw1")] := by decide

example :
    (reconcile [("alice", "pw1")] initialState).1.users =
      [⟨1, "alice", generate_password_hash "pw1"⟩] := by decide

example :
    (reconcile [] ⟨[⟨1, "alice", "h"⟩], [⟨1, 1, "note", [104]⟩], 2, 2⟩).1 =
      ⟨[], [⟨1, 1, "note", [104]⟩], 2, 2⟩ := by decide

example : pyUtf8Decode (pyUtf8Encode "héllo✓") =
    some ("héllo✓".data.map Char.toNat) := by decide

example : (add_note initialState (some 1) "  \t ").2 =
    .validationError "Note content cannot be empty." := by decide

example :
    readChunks [] [[1, 2], [3], []] = (none, [1, 2, 3], []) := by decide

/-! ### Basic facts about row selection -/

theorem check_generate (p : String) :
    check_password_hash (generate_password_hash p) p = true := by
  simp [check_password_hash]

theorem mem_usersWith {r : UserRec} {l : List UserRec} {u : String} :
    r ∈ usersWith l u ↔ r ∈ l ∧ r.username = u := by
  simp [usersWith, List.mem_filter]

theorem usersWith_append (l1 l2 : List UserRec) (u : String) :
    usersWith (l1 ++ l2) u = usersWith l1 u ++ usersWith l2 u :=
  List.filter_append ..

theorem usersWith_eq_nil_iff {l : List UserRec} {u : String} :
    usersWith l u = [] ↔ ∀ r ∈ l, r.username ≠ u := by
  simp [usersWith, List.filter_eq_nil_iff]

theorem usersWith_map_preserving {l : List UserRec} {f : UserRec → UserRec}
    (hf : ∀ r, (f r).username = r.username) (u : String) :
    usersWith (l.map f) u = (usersWith l u).map f := by
  induction l with
  | nil => rfl
  | cons r rest ih =>
    simp only [List.map_cons, usersWith, List.filter_cons, hf r] at *
    by_cases h : r.username = u
    · simp [h, ih]
    · simp [h, ih]

theorem hasUsername_iff {l : List UserRec} {u : String} :
    hasUsername l u = true ↔ ∃ r ∈ l, r.username = u := by
  simp [hasUsername, List.any_eq_true]

theorem hasUsername_eq_false_iff {l : List UserRec} {u : String} :
    hasUsername l u = false ↔ ∀ r ∈ l, r.username ≠ u := by
  rw [← Bool.not_eq_true, hasUsername_iff]; push_neg; rfl

theorem declaresName_iff {d : List (String × String)} {u : String} :
    declaresName d u = true ↔ ∃ kv ∈ d, kv.1 = u := by
  simp [declaresName, List.any_eq_true]

theorem declaresName_of_mem {d : List (String × String)} {u p : String}
    (h : (u, p) ∈ d) : declaresName d u = true :=
  declaresName_iff.2 ⟨(u, p), h, rfl⟩

/-- With distinct usernames, a successful `find?` pins down the whole
selection: the found row is the only row with that username. -/
theorem usersWith_eq_of_find? {l : List UserRec} {u : String} {r0 : UserRec}
    (hnd : (l.map (·.username)).Nodup)
    (hf : l.find? (fun r => r.username == u) = some r0) :
    usersWith l u = [r0] := by
  induction l with
  | nil => simp at hf
  | cons r rest ih =>
    simp only [List.map_cons, List.nodup_cons, List.mem_map] at hnd
    by_cases h : r.username = u
    · rw [List.find?_cons_of_pos _ (by simp [h])] at hf
      obtain rfl : r = r0 := by injection hf
      have hnil : usersWith rest u = [] := usersWith_eq_nil_iff.2 fun x hx hxu =>
        hnd.1 ⟨x, hx, by rw [hxu, h]⟩
      simpa [usersWith, List.filter_cons, h] using hnil
    · rw [List.find?_cons_of_neg _ (by simp [h])] at hf
      have := ih hnd.2 hf
      simpa [usersWith, List.filter_cons, h] using this

theorem find?_eq_of_usersWith {l : List UserRec} {u : String} {r0 : UserRec}
    (h : usersWith l u = [r0]) :
    l.find? (fun r => r.username == u) = some r0 := by
  induction l with
  | nil => simp [usersWith] at h
  | cons r rest ih =>
    by_cases hr : r.username = u
    · rw [List.find?_cons_of_pos _ (by simp [hr])]
      simp only [usersWith, List.filter_cons, hr, beq_self_eq_true, if_true] at h
      injection h with h1 _
      rw [h1]
    · rw [List.find?_cons_of_neg _ (by simp [hr])]
      refine ih ?_
      simpa [usersWith, List.filter_cons, hr] using h

/-! ### Effect of the three SQL statements on row selections -/

theorem insertUser_usersWith_self (st : DBState) (u h : String) :
    usersWith (insertUser st u h).users u =
      usersWith st.users u ++ [⟨st.nextUserId, u, h⟩] := by
  simp [insertUser, usersWith_append, usersWith]

theorem insertUser_usersWith_other {u v : String} (st : DBState) (h : String)
    (hne : v ≠ u) :
    usersWith (insertUser st u h).users v = usersWith st.users v := by
  simp [insertUser, usersWith_append, usersWith, Ne.symm hne]

theorem updateUserHash_usersWith_self (st : DBState) (u h : String) :
    usersWith (updateUserHash st u h).users u =
      (usersWith st.users u).map fun r => { r with password_hash := h } := by
  unfold updateUserHash
  rw [usersWith_map_preserving (fun r => by by_cases hr : r.username = u <;> simp [hr])]
  refine List.map_congr_left fun r hr => ?_
  have := (mem_usersWith.1 hr).2
  simp [this]

theorem updateUserHash_usersWith_other {u v : String} (st : DBState) (h : String)
    (hne : v ≠ u) :
    usersWith (updateUserHash st u h).users v = usersWith st.users v := by
  unfold updateUserHash
  rw [usersWith_map_preserving (fun r => by by_cases hr : r.username = u <;> simp [hr])]
  refine (List.map_congr_left fun r hr => ?_).trans (List.map_id _)
  have := (mem_usersWith.1 hr).2
  simp [this, fun hh : v = u => hne hh]

theorem deleteUser_usersWith_self (st : DBState) (u : String) :
    usersWith (deleteUser st u).users u = [] := by
  simp [deleteUser, usersWith, List.filter_filter]

theorem deleteUser_usersWith_other {u v : String} (st : DBState) (hne : v ≠ u) :
    usersWith (deleteUser st u).users v = usersWith st.users v := by
  simp only [deleteUser, usersWith, List.filter_filter]
  refine List.filter_congr fun r _ => ?_
  by_cases hr : r.username = v
  · simp [hr, hne, Ne.symm hne]
  · simp [hr]

theorem declaresName_eq_false_iff {d : List (String × String)} {u : String} :
    declaresName d u = false ↔ ∀ kv ∈ d, kv.1 ≠ u := by
  rw [← Bool.not_eq_true, declaresName_iff]; push_neg; rfl

/-! ### Unfolding equations for the reconciliation loops -/

theorem syncDeclared_cons_absent {snapshot : List UserRec} {username : String}
    (password : String) (rest : List (String × String)) (st : DBState)
    (hf : snapshot.find? (fun r => r.username == username) = none) :
    syncDeclared snapshot ((username, password) :: rest) st =
      ((syncDeclared snapshot rest
          (insertUser st username (generate_password_hash password))).1,
       .create username (generate_password_hash password) ::
         (syncDeclared snapshot rest
           (insertUser st username (generate_password_hash password))).2) := by
  simp only [syncDeclared, hf]

theorem syncDeclared_cons_ok {snapshot : List UserRec} {username : String}
    {r0 : UserRec} (password : String) (rest : List (String × String)) (st : DBState)
    (hf : snapshot.find? (fun r => r.username == username) = some r0)
    (hc : check_password_hash r0.password_hash password = true) :
    syncDeclared snapshot ((username, password) :: rest) st =
      syncDeclared snapshot rest st := by
  simp only [syncDeclared, hf, hc, if_true]

theorem syncDeclared_cons_stale {snapshot : List UserRec} {username : String}
    {r0 : UserRec} (password : String) (rest : List (String × String)) (st : DBState)
    (hf : snapshot.find? (fun r => r.username == username) = some r0)
    (hc : check_password_hash r0.password_hash password = false) :
    syncDeclared snapshot ((username, password) :: rest) st =
      ((syncDeclared snapshot rest
          (updateUserHash st username (generate_password_hash password))).1,
       .setHash username (generate_password_hash password) ::
         (syncDeclared snapshot rest
           (updateUserHash st username (generate_password_hash password))).2) := by
  simp only [syncDeclared, hf, hc, Bool.false_eq_true, if_false]

theorem purgeAbsent_cons_kept {declared : List (String × String)} {r : UserRec}
    (rest : List UserRec) (st : DBState)
    (hd : declaresName declared r.username = true) :
    purgeAbsent declared (r :: rest) st = purgeAbsent declared rest st := by
  simp only [declaresName] at hd
  simp only [purgeAbsent, hd, if_true]

theorem purgeAbsent_cons_dropped {declared : List (String × String)} {r : UserRec}
    (rest : List UserRec) (st : DBState)
    (hd : declaresName declared r.username = false) :
    purgeAbsent declared (r :: rest) st =
      ((purgeAbsent declared rest (deleteUser st r.username)).1,
       .delete r.username :: (purgeAbsent declared rest (deleteUser st r.username)).2) := by
  simp only [declaresName] at hd
  simp only [purgeAbsent, hd, Bool.false_eq_true, if_false]

/-! ### The create/update phase -/

/-- The first loop never touches the `items` table, its counter, or rows of
usernames it does not declare. -/
theorem syncDeclared_items (snapshot : List UserRec) (ds : List (String × String)) :
    ∀ st : DBState, (syncDeclared snapshot ds st).1.items = st.items ∧
      (syncDeclared snapshot ds st).1.nextItemId = st.nextItemId := by
  induction ds with
  | nil => intro st; exact ⟨rfl, rfl⟩
  | cons kv rest ih =>
    intro st
    obtain ⟨username, password⟩ := kv
    cases hf : snapshot.find? (fun r => r.username == username) with
    | none =>
      rw [syncDeclared_cons_absent _ _ _ hf]
      simpa [insertUser] using ih (insertUser st username (generate_password_hash password))
    | some r0 =>
      cases hc : check_password_hash r0.password_hash password with
      | true => rw [syncDeclared_cons_ok _ _ _ hf hc]; exact ih st
      | false =>
        rw [syncDeclared_cons_stale _ _ _ hf hc]
        simpa [updateUserHash] using
          ih (updateUserHash st username (generate_password_hash password))

theorem syncDeclared_usersWith_frame (snapshot : List UserRec)
    (ds : List (String × String)) (u : String) :
    ∀ st : DBState, declaresName ds u = false →
      usersWith (syncDeclared snapshot ds st).1.users u = usersWith st.users u := by
  induction ds with
  | nil => intro st _; rfl
  | cons kv rest ih =>
    intro st hu
    obtain ⟨username, password⟩ := kv
    have hne : u ≠ username := fun h =>
      declaresName_eq_false_iff.1 hu (username, password) (List.mem_cons_self _ _) h.symm
    have hurest : declaresName rest u = false :=
      declaresName_eq_false_iff.2 fun kv hkv =>
        declaresName_eq_false_iff.1 hu kv (List.mem_cons_of_mem _ hkv)
    cases hf : snapshot.find? (fun r => r.username == username) with
    | none =>
      rw [syncDeclared_cons_absent _ _ _ hf, ih _ hurest,
        insertUser_usersWith_other _ _ hne]
    | some r0 =>
      cases hc : check_password_hash r0.password_hash password with
      | true => rw [syncDeclared_cons_ok _ _ _ hf hc, ih _ hurest]
      | false =>
        rw [syncDeclared_cons_stale _ _ _ hf hc, ih _ hurest,
          updateUserHash_usersWith_other _ _ hne]

/-- Core correctness of the create/update phase: a declared username ends up
with exactly one row, that row verifies the declared password, and if the
username already had a row in the snapshot the surrogate id is kept. -/
theorem syncDeclared_usersWith_declared (snapshot : List UserRec)
    (hsnap : (snapshot.map (·.username)).Nodup) (ds : List (String × String)) :
    ∀ st : DBState, ∀ u p : String, (ds.map Prod.fst).Nodup → (u, p) ∈ ds →
      usersWith st.users u = usersWith snapshot u →
      ∃ r : UserRec, usersWith (syncDeclared snapshot ds st).1.users u = [r] ∧
        r.username = u ∧ check_password_hash r.password_hash p = true ∧
        ∀ r0 ∈ snapshot, r0.username = u → r.id = r0.id := by
  induction ds with
  | nil => intro st u p _ hmem _; simp at hmem
  | cons kv rest ih =>
    intro st u p hnd hmem hinv
    obtain ⟨username, password⟩ := kv
    simp only [List.map_cons, List.nodup_cons] at hnd
    rcases List.mem_cons.1 hmem with heq | hrest
    · obtain ⟨rfl, rfl⟩ : u = username ∧ p = password := by
        injection heq with h1 h2; exact ⟨h1, h2⟩
      have hurest : declaresName rest u = false :=
        declaresName_eq_false_iff.2 fun kv hkv hk =>
          hnd.1 (List.mem_map.2 ⟨kv, hkv, hk⟩)
      cases hf : snapshot.find? (fun r => r.username == u) with
      | none =>
        have hsnapnil : usersWith snapshot u = [] :=
          usersWith_eq_nil_iff.2 fun r hr hru => by
            have := List.find?_eq_none.1 hf r hr
            simp [hru] at this
        rw [syncDeclared_cons_absent _ _ _ hf,
          syncDeclared_usersWith_frame _ _ _ _ hurest,
          insertUser_usersWith_self, hinv, hsnapnil]
        exact ⟨⟨st.nextUserId, u, generate_password_hash p⟩, rfl, rfl,
          check_generate p,
          fun r0 hr0 hru => (usersWith_eq_nil_iff.1 hsnapnil r0 hr0 hru).elim⟩
      | some r0 =>
        have hr0u : r0.username = u := by
          have := List.find?_some hf; simpa using this
        have hsnap1 : usersWith snapshot u = [r0] := usersWith_eq_of_find? hsnap hf
        have hid : ∀ r1 ∈ snapshot, r1.username = u → r0.id = r1.id := by
          intro r1 h1 h1u
          have : r1 ∈ usersWith snapshot u := mem_usersWith.2 ⟨h1, h1u⟩
          rw [hsnap1] at this
          simp at this
          rw [this]
        cases hc : check_password_hash r0.password_hash p with
        | true =>
          rw [syncDeclared_cons_ok _ _ _ hf hc,
            syncDeclared_usersWith_frame _ _ _ _ hurest, hinv, hsnap1]
          exact ⟨r0, rfl, hr0u, hc, hid⟩
        | false =>
          rw [syncDeclared_cons_stale _ _ _ hf hc,
            syncDeclared_usersWith_frame _ _ _ _ hurest,
            updateUserHash_usersWith_self, hinv, hsnap1]
          exact ⟨{ r0 with password_hash := generate_password_hash p }, rfl,
            hr0u, check_generate p, hid⟩
    · have hne : u ≠ username := fun h =>
        hnd.1 (List.mem_map.2 ⟨(u, p), hrest, by simpa using h⟩)
      cases hf : snapshot.find? (fun r => r.username == username) with
      | none =>
        rw [syncDeclared_cons_absent _ _ _ hf]
        exact ih _ u p hnd.2 hrest
          (by rw [insertUser_usersWith_other _ _ hne, hinv])
      | some r0 =>
        cases hc : check_password_hash r0.password_hash password with
        | true =>
          rw [syncDeclared_cons_ok _ _ _ hf hc]
          exact ih _ u p hnd.2 hrest hinv
        | false =>
          rw [syncDeclared_cons_stale _ _ _ hf hc]
          exact ih _ u p hnd.2 hrest
            (by rw [updateUserHash_usersWith_other _ _ hne, hinv])

/-! ### The delete phase -/

theorem purgeAbsent_frame (declared : List (String × String)) (rows : List UserRec) :
    ∀ st : DBState, (purgeAbsent declared rows st).1.items = st.items ∧
      (purgeAbsent declared rows st).1.nextItemId = st.nextItemId ∧
      (purgeAbsent declared rows st).1.nextUserId = st.nextUserId := by
  induction rows with
  | nil => intro st; exact ⟨rfl, rfl, rfl⟩
  | cons r rest ih =>
    intro st
    cases hd : declaresName declared r.username with
    | true => rw [purgeAbsent_cons_kept _ _ hd]; exact ih st
    | false =>
      rw [purgeAbsent_cons_dropped _ _ hd]
      simpa [deleteUser] using ih (deleteUser st r.username)

theorem purgeAbsent_sub (declared : List (String × String)) (rows : List UserRec) :
    ∀ st : DBState, ∀ r ∈ (purgeAbsent declared rows st).1.users, r ∈ st.users := by
  induction rows with
  | nil => intro st r hr; exact hr
  | cons r1 rest ih =>
    intro st r hr
    cases hd : declaresName declared r1.username with
    | true =>
      rw [purgeAbsent_cons_kept _ _ hd] at hr
      exact ih st r hr
    | false =>
      rw [purgeAbsent_cons_dropped _ _ hd] at hr
      exact List.mem_of_mem_filter (ih (deleteUser st r1.username) r hr)

theorem purgeAbsent_usersWith_declared (declared : List (String × String))
    (rows : List UserRec) (u : String) (hd : declaresName declared u = true) :
    ∀ st : DBState,
      usersWith (purgeAbsent declared rows st).1.users u = usersWith st.users u := by
  induction rows with
  | nil => intro st; rfl
  | cons r rest ih =>
    intro st
    cases hd0 : declaresName declared r.username with
    | true => rw [purgeAbsent_cons_kept _ _ hd0]; exact ih st
    | false =>
      have hne : u ≠ r.username := fun h => by rw [← h, hd] at hd0; cases hd0
      rw [purgeAbsent_cons_dropped _ _ hd0, ih (deleteUser st r.username),
        deleteUser_usersWith_other _ hne]

theorem purgeAbsent_usersWith_nil (declared : List (String × String))
    (rows : List UserRec) :
    ∀ st : DBState, ∀ u : String, usersWith st.users u = [] →
      usersWith (purgeAbsent declared rows st).1.users u = [] := by
  induction rows with
  | nil => intro st u h; exact h
  | cons r rest ih =>
    intro st u h
    cases hd : declaresName declared r.username with
    | true => rw [purgeAbsent_cons_kept _ _ hd]; exact ih st u h
    | false =>
      rw [purgeAbsent_cons_dropped _ _ hd]
      refine ih (deleteUser st r.username) u ?_
      by_cases hu : u = r.username
      · rw [hu, deleteUser_usersWith_self]
      · rw [deleteUser_usersWith_other _ hu, h]

theorem purgeAbsent_kills (declared : List (String × String)) (rows : List UserRec) :
    ∀ st : DBState, ∀ r ∈ rows, declaresName declared r.username = false →
      usersWith (purgeAbsent declared rows st).1.users r.username = [] := by
  induction rows with
  | nil => intro st r hr; cases hr
  | cons r1 rest ih =>
    intro st r hr habs
    rcases List.mem_cons.1 hr with rfl | hrest
    · rw [purgeAbsent_cons_dropped _ _ habs]
      exact purgeAbsent_usersWith_nil _ _ _ _ (deleteUser_usersWith_self st r.username)
    · cases hd : declaresName declared r1.username with
      | true => rw [purgeAbsent_cons_kept _ _ hd]; exact ih st r hrest habs
      | false =>
        rw [purgeAbsent_cons_dropped _ _ hd]
        exact ih (deleteUser st r1.username) r hrest habs

/-! ### Reconciliation as a whole -/

theorem reconcile_fst (declared : List (String × String)) (st : DBState) :
    (reconcile declared st).1 =
      (purgeAbsent declared st.users (syncDeclared st.users declared st).1).1 := rfl

/-- Reconciliation never touches the `items` table or its counter. -/
theorem reconcile_items (declared : List (String × String)) (st : DBState) :
    (reconcile declared st).1.items = st.items ∧
      (reconcile declared st).1.nextItemId = st.nextItemId := by
  rw [reconcile_fst]
  obtain ⟨h1, h2, _⟩ := purgeAbsent_frame declared st.users (syncDeclared st.users declared st).1
  obtain ⟨h3, h4⟩ := syncDeclared_items st.users declared st
  exact ⟨h1.trans h3, h2.trans h4⟩

/-- After `reconcile`, a declared username has exactly one row; it verifies
the declared password, and keeps the pre-existing surrogate id if the
username was already present. -/
theorem reconcile_usersWith_declared {declared : List (String × String)}
    {st : DBState} {u p : String}
    (hnd : (declared.map Prod.fst).Nodup)
    (hu : (st.users.map (·.username)).Nodup)
    (hmem : (u, p) ∈ declared) :
    ∃ r : UserRec, usersWith (reconcile declared st).1.users u = [r] ∧
      r.username = u ∧ check_password_hash r.password_hash p = true ∧
      ∀ r0 ∈ st.users, r0.username = u → r.id = r0.id := by
  obtain ⟨r, hr, hru, hchk, hid⟩ :=
    syncDeclared_usersWith_declared st.users hu declared st u p hnd hmem rfl
  refine ⟨r, ?_, hru, hchk, hid⟩
  rw [reconcile_fst,
    purgeAbsent_usersWith_declared _ _ _ (declaresName_of_mem hmem), hr]

/-- After `reconcile`, a username that is not declared has no row. -/
theorem reconcile_usersWith_absent (declared : List (String × String))
    (st : DBState) (u : String) (habs : declaresName declared u = false) :
    usersWith (reconcile declared st).1.users u = [] := by
  rw [reconcile_fst]
  have hframe := syncDeclared_usersWith_frame st.users declared u st habs
  by_cases hnil : usersWith st.users u = []
  · exact purgeAbsent_usersWith_nil _ _ _ u (hframe.trans hnil)
  · obtain ⟨r, hr⟩ : ∃ r, r ∈ usersWith st.users u :=
      List.exists_mem_of_ne_nil _ hnil
    obtain ⟨hrm, hru⟩ := mem_usersWith.1 hr
    have := purgeAbsent_kills declared st.users
      (syncDeclared st.users declared st).1 r hrm (by rw [hru]; exact habs)
    rw [hru] at this
    exact this

/-! ### Idempotency of reconciliation -/

theorem syncDeclared_noop (st : DBState) :
    ∀ ds : List (String × String),
      (∀ u p : String, (u, p) ∈ ds → ∃ r : UserRec,
        st.users.find? (fun r => r.username == u) = some r ∧
          check_password_hash r.password_hash p = true) →
      syncDeclared st.users ds st = (st, []) := by
  intro ds
  induction ds with
  | nil => intro _; rfl
  | cons kv rest ih =>
    intro h
    obtain ⟨username, password⟩ := kv
    obtain ⟨r, hf, hc⟩ := h username password (List.mem_cons_self _ _)
    rw [syncDeclared_cons_ok _ _ _ hf hc]
    exact ih fun u p hm => h u p (List.mem_cons_of_mem _ hm)

theorem purgeAbsent_noop (declared : List (String × String)) (st : DBState) :
    ∀ rows : List UserRec,
      (∀ r ∈ rows, declaresName declared r.username = true) →
      purgeAbsent declared rows st = (st, []) := by
  intro rows
  induction rows with
  | nil => intro _; rfl
  | cons r rest ih =>
    intro h
    rw [purgeAbsent_cons_kept _ _ (h r (List.mem_cons_self _ _))]
    exact ih fun r' hr => h r' (List.mem_cons_of_mem _ hr)

/-- Every row that survives reconciliation carries a declared username. -/
theorem reconcile_mem_declared {declared : List (String × String)} {st : DBState}
    (r : UserRec) (hr : r ∈ (reconcile declared st).1.users) :
    declaresName declared r.username = true := by
  cases hd : declaresName declared r.username with
  | true => rfl
  | false =>
    have habs := reconcile_usersWith_absent declared st r.username hd
    have hm : r ∈ usersWith (reconcile declared st).1.users r.username :=
      mem_usersWith.2 ⟨hr, rfl⟩
    rw [habs] at hm
    cases hm

/-! ### Claims about reconciliation -/

/-- C1: for every declared user map `D` (distinct usernames, as a mapping)
and every initial persisted user set (distinct usernames, as the `UNIQUE`
column enforces), `reconcile D` leaves the users table containing exactly
the usernames that are keys of `D`, each stored with a password hash that
verifies `D`'s password for that username. -/
theorem reconcile_exact_declared (declared : List (String × String)) (st : DBState)
    (hnd : (declared.map Prod.fst).Nodup)
    (hu : (st.users.map (·.username)).Nodup) :
    (∀ u : String, (∃ r ∈ (reconcile declared st).1.users, r.username = u) ↔
        ∃ p : String, (u, p) ∈ declared) ∧
    ∀ r ∈ (reconcile declared st).1.users, ∀ p : String,
      (r.username, p) ∈ declared → check_password_hash r.password_hash p = true := by
  constructor
  · intro u
    constructor
    · rintro ⟨r, hr, rfl⟩
      obtain ⟨kv, hkv, hk⟩ := declaresName_iff.1 (reconcile_mem_declared r hr)
      exact ⟨kv.2, by rw [← hk]; simpa using hkv⟩
    · rintro ⟨p, hp⟩
      obtain ⟨r, hr, hru, _, _⟩ := reconcile_usersWith_declared hnd hu hp
      have hm : r ∈ usersWith (reconcile declared st).1.users u := by
        rw [hr]; exact List.mem_cons_self _ _
      exact ⟨r, (mem_usersWith.1 hm).1, hru⟩
  · intro r hr p hp
    obtain ⟨r', hr', _, hchk, _⟩ := reconcile_usersWith_declared hnd hu hp
    have hm : r ∈ usersWith (reconcile declared st).1.users r.username :=
      mem_usersWith.2 ⟨hr, rfl⟩
    rw [hr'] at hm
    have : r = r' := by simpa using hm
    rw [this]
    exact hchk

/-- Closed witness for C1: reconciling `{alice ↦ pw1}` against a store
holding `alice` (stale hash) and `bob`. -/
theorem reconcile_exact_declared_witness :
    (([("alice", "pw1")].map Prod.fst).Nodup ∧
      (((⟨[⟨1, "alice", "x"⟩, ⟨2, "bob", "y"⟩], [], 3, 1⟩ : DBState).users.map
        (·.username)).Nodup)) ∧
    ((∀ u : String,
        (∃ r ∈ (reconcile [("alice", "pw1")]
            (⟨[⟨1, "alice", "x"⟩, ⟨2, "bob", "y"⟩], [], 3, 1⟩ : DBState)).1.users,
          r.username = u) ↔ ∃ p : String, (u, p) ∈ [("alice", "pw1")]) ∧
      ∀ r ∈ (reconcile [("alice", "pw1")]
          (⟨[⟨1, "alice", "x"⟩, ⟨2, "bob", "y"⟩], [], 3, 1⟩ : DBState)).1.users,
        ∀ p : String, (r.username, p) ∈ [("alice", "pw1")] →
          check_password_hash r.password_hash p = true) :=
  ⟨⟨by decide, by decide⟩, reconcile_exact_declared _ _ (by decide) (by decide)⟩

/-- A run of `reconcile` on a state that already agrees with the declared
map performs no mutation. -/
theorem reconcile_noop (declared : List (String × String)) (st : DBState)
    (hd : ∀ u p : String, (u, p) ∈ declared → ∃ r : UserRec,
      st.users.find? (fun r => r.username == u) = some r ∧
        check_password_hash r.password_hash p = true)
    (ha : ∀ r ∈ st.users, declaresName declared r.username = true) :
    reconcile declared st = (st, []) := by
  have h1 := syncDeclared_noop st declared hd
  have h2 := purgeAbsent_noop declared st st.users ha
  simp [reconcile, h1, h2]

/-- C5: `reconcile` is idempotent: running it a second time with the same
declared map performs no mutation at all (empty operation log) and leaves
the state of the first run unchanged. -/
theorem reconcile_idempotent (declared : List (String × String)) (st : DBState)
    (hnd : (declared.map Prod.fst).Nodup)
    (hu : (st.users.map (·.username)).Nodup) :
    reconcile declared (reconcile declared st).1 = ((reconcile declared st).1, []) := by
  refine reconcile_noop declared (reconcile declared st).1 (fun u p hm => ?_)
    (fun r hr => reconcile_mem_declared r hr)
  obtain ⟨r, hr, _, hchk, _⟩ := reconcile_usersWith_declared hnd hu hm
  exact ⟨r, find?_eq_of_usersWith hr, hchk⟩

/-- Closed witness for C5 at a concrete declared map and store. -/
theorem reconcile_idempotent_witness :
    (([("alice", "pw1"), ("bob", "pw2")].map Prod.fst).Nodup ∧
      ((initialState.users.map (·.username)).Nodup)) ∧
    reconcile [("alice", "pw1"), ("bob", "pw2")]
        (reconcile [("alice", "pw1"), ("bob", "pw2")] initialState).1 =
      ((reconcile [("alice", "pw1"), ("bob", "pw2")] initialState).1, []) :=
  ⟨⟨by decide, by decide⟩, reconcile_idempotent _ _ (by decide) (by decide)⟩

/-- C6: when a persisted user is declared with a password that does not
verify against the stored hash, reconciliation overwrites the hash in
place: some surviving row keeps the same surrogate id and username while
now verifying the declared password. -/
theorem reconcile_updates_in_place (declared : List (String × String))
    (st : DBState) (r0 : UserRec) (p : String)
    (hnd : (declared.map Prod.fst).Nodup)
    (hu : (st.users.map (·.username)).Nodup)
    (hr0 : r0 ∈ st.users)
    (hmem : (r0.username, p) ∈ declared)
    (_hstale : check_password_hash r0.password_hash p = false) :
    ∃ r' ∈ (reconcile declared st).1.users,
      r'.id = r0.id ∧ r'.username = r0.username ∧
        check_password_hash r'.password_hash p = true := by
  obtain ⟨r, hr, hru, hchk, hid⟩ := reconcile_usersWith_declared hnd hu hmem
  have hm : r ∈ usersWith (reconcile declared st).1.users r0.username := by
    rw [hr]; exact List.mem_cons_self _ _
  exact ⟨r, (mem_usersWith.1 hm).1, hid r0 hr0 rfl, hru, hchk⟩

/-- Closed witness for C6: `alice` exists with a stale hash and is declared
with password `pw2`. -/
theorem reconcile_updates_in_place_witness :
    (([("alice", "pw2")].map Prod.fst).Nodup ∧
      (((⟨[⟨7, "alice", "stale"⟩], [], 8, 1⟩ : DBState).users.map (·.username)).Nodup) ∧
      (⟨7, "alice", "stale"⟩ : UserRec) ∈ (⟨[⟨7, "alice", "stale"⟩], [], 8, 1⟩ : DBState).users ∧
      ((⟨7, "alice", "stale"⟩ : UserRec).username, "pw2") ∈ [("alice", "pw2")] ∧
      check_password_hash (⟨7, "alice", "stale"⟩ : UserRec).password_hash "pw2" = false) ∧
    ∃ r' ∈ (reconcile [("alice", "pw2")]
        (⟨[⟨7, "alice", "stale"⟩], [], 8, 1⟩ : DBState)).1.users,
      r'.id = (⟨7, "alice", "stale"⟩ : UserRec).id ∧
        r'.username = (⟨7, "alice", "stale"⟩ : UserRec).username ∧
          check_password_hash r'.password_hash "pw2" = true :=
  ⟨⟨by decide, by decide, by decide, by decide, by decide⟩,
    reconcile_updates_in_place _ _ _ _ (by decide) (by decide) (by decide)
      (by decide) (by decide)⟩

/-- C8: reconciliation leaves the `items` table exactly as it was; in
particular the items of a user it deletes are neither removed nor modified
and remain as orphaned records. -/
theorem reconcile_leaves_items (declared : List (String × String)) (st : DBState) :
    (reconcile declared st).1.items = st.items ∧
    ∀ r0 ∈ st.users, declaresName declared r0.username = false →
      ∀ it ∈ st.items, it.user_id = r0.id → it ∈ (reconcile declared st).1.items := by
  refine ⟨(reconcile_items declared st).1, ?_⟩
  intro r0 _ _ it hit _
  rw [(reconcile_items declared st).1]
  exact hit

/-- Closed witness for C8: reconciling with an empty declared map deletes
`bob` but leaves `bob`'s item row in place. -/
theorem reconcile_leaves_items_witness :
    ((reconcile [] (⟨[⟨1, "bob", "h"⟩], [⟨1, 1, "note", [104]⟩], 2, 2⟩ : DBState)).1.items =
        (⟨[⟨1, "bob", "h"⟩], [⟨1, 1, "note", [104]⟩], 2, 2⟩ : DBState).items ∧
      ((⟨1, "bob", "h"⟩ : UserRec) ∈
          (⟨[⟨1, "bob", "h"⟩], [⟨1, 1, "note", [104]⟩], 2, 2⟩ : DBState).users ∧
        declaresName [] (⟨1, "bob", "h"⟩ : UserRec).username = false ∧
        (⟨1, 1, "note", [104]⟩ : ItemRec) ∈
          (⟨[⟨1, "bob", "h"⟩], [⟨1, 1, "note", [104]⟩], 2, 2⟩ : DBState).items ∧
        (⟨1, 1, "note", [104]⟩ : ItemRec).user_id = (⟨1, "bob", "h"⟩ : UserRec).id)) ∧
    (⟨1, 1, "note", [104]⟩ : ItemRec) ∈
      (reconcile [] (⟨[⟨1, "bob", "h"⟩], [⟨1, 1, "note", [104]⟩], 2, 2⟩ : DBState)).1.items :=
  ⟨⟨by decide, by decide, by decide, by decide, by decide⟩,
    (reconcile_leaves_items []
        (⟨[⟨1, "bob", "h"⟩], [⟨1, 1, "note", [104]⟩], 2, 2⟩ : DBState)).2
      ⟨1, "bob", "h"⟩ (by decide) (by decide) ⟨1, 1, "note", [104]⟩
      (by decide) (by decide)⟩

/-! ### Bounded streaming upload ingestion -/

/-- Joint invariant of the accumulation loop: starting from a buffer within
the ceiling, (a) the buffer at loop exit never exceeds the ceiling by more
than one transport chunk, and (b) when the loop aborts with the size error,
the chunks it returns unread are exactly the ones after the offending
chunk, and the outcome is the same whatever those unread chunks are. -/
theorem readChunks_spec (chunks : List (List Nat)) :
    ∀ buf : List Nat, buf.length ≤ MAX_FILE_SIZE →
      ((∀ c ∈ chunks, c.length ≤ 8192) →
        ((readChunks buf chunks).2.1).length ≤ MAX_FILE_SIZE + 8192) ∧
      ∀ msg : String, ∀ buf' : List Nat, ∀ unread : List (List Nat),
        readChunks buf chunks = (some msg, buf', unread) →
        ∃ taken : List (List Nat), chunks = taken ++ unread ∧
          ∀ rest2 : List (List Nat),
            readChunks buf (taken ++ rest2) = (some msg, buf', rest2) := by
  induction chunks with
  | nil =>
    intro buf hb
    refine ⟨fun _ => ?_, fun msg buf' unread h => ?_⟩
    · simp only [readChunks]; omega
    · simp [readChunks] at h
  | cons chunk rest ih =>
    intro buf hb
    cases hemp : chunk.isEmpty with
    | true =>
      refine ⟨fun _ => ?_, fun msg buf' unread h => ?_⟩
      · simp only [readChunks, hemp, if_true]; omega
      · simp [readChunks, hemp] at h
    | false =>
      by_cases hover : (buf ++ chunk).length > MAX_FILE_SIZE
      · refine ⟨fun hc => ?_, fun msg buf' unread h => ?_⟩
        · have hlen : chunk.length ≤ 8192 := hc chunk (List.mem_cons_self _ _)
          simp only [readChunks, hemp, Bool.false_eq_true, if_false, if_pos hover]
          simp only [List.length_append] at *
          omega
        · simp only [readChunks, hemp, Bool.false_eq_true, if_false,
            if_pos hover, Prod.mk.injEq, Option.some.injEq] at h
          obtain ⟨h1, h2, h3⟩ := h
          subst h1; subst h2; subst h3
          refine ⟨[chunk], rfl, fun rest2 => ?_⟩
          simp only [List.cons_append, List.nil_append, readChunks, hemp,
            Bool.false_eq_true, if_false, if_pos hover]
          rfl
      · have hb' : (buf ++ chunk).length ≤ MAX_FILE_SIZE := by
          simp only [List.length_append] at *; omega
        have hstep : ∀ tail : List (List Nat),
            readChunks buf (chunk :: tail) = readChunks (buf ++ chunk) tail := by
          intro tail
          simp only [readChunks, hemp, Bool.false_eq_true, if_false, if_neg hover]
        refine ⟨fun hc => ?_, fun msg buf' unread h => ?_⟩
        · rw [hstep rest]
          exact (ih (buf ++ chunk) hb').1 fun c hcm => hc c (List.mem_cons_of_mem _ hcm)
        · rw [hstep rest] at h
          obtain ⟨taken, htk, hall⟩ := (ih (buf ++ chunk) hb').2 msg buf' unread h
          refine ⟨chunk :: taken, by rw [htk]; rfl, fun rest2 => ?_⟩
          rw [List.cons_append, hstep (taken ++ rest2)]
          exact hall rest2

/-- C3: once the accumulated buffer exceeds the 50 MiB ceiling the loop
aborts before pulling any further chunk from the stream (the unread chunks
are returned untouched and cannot influence the outcome), and at every
iteration — i.e. for every prefix of the stream — the buffer never exceeds
the ceiling by more than one 8 KiB transport chunk. -/
theorem upload_loop_bounded (chunks : List (List Nat))
    (hchunk : ∀ c ∈ chunks, c.length ≤ 8192) :
    (∀ j : Nat, ((readChunks [] (chunks.take j)).2.1).length ≤ MAX_FILE_SIZE + 8192) ∧
    ∀ msg : String, ∀ buf : List Nat, ∀ unread : List (List Nat),
      readChunks [] chunks = (some msg, buf, unread) →
      ∃ taken : List (List Nat), chunks = taken ++ unread ∧
        ∀ rest2 : List (List Nat),
          readChunks [] (taken ++ rest2) = (some msg, buf, rest2) := by
  constructor
  · intro j
    exact (readChunks_spec (chunks.take j) [] (by simp)).1
      fun c hc => hchunk c (List.take_subset _ _ hc)
  · exact (readChunks_spec chunks [] (by simp)).2

/-- Closed witness for C3: a three-chunk stream within the transport's
chunk-size bound. -/
theorem upload_loop_bounded_witness :
    (∀ c ∈ [[1], [2, 3], [4]], List.length c ≤ 8192) ∧
    ((∀ j : Nat,
        ((readChunks [] (([[1], [2, 3], [4]] : List (List Nat)).take j)).2.1).length ≤
          MAX_FILE_SIZE + 8192) ∧
      ∀ msg : String, ∀ buf : List Nat, ∀ unread : List (List Nat),
        readChunks [] [[1], [2, 3], [4]] = (some msg, buf, unread) →
        ∃ taken : List (List Nat), [[1], [2, 3], [4]] = taken ++ unread ∧
          ∀ rest2 : List (List Nat),
            readChunks [] (taken ++ rest2) = (some msg, buf, rest2)) :=
  ⟨by decide, upload_loop_bounded _ (by decide)⟩

/-- On a stream of nonempty chunks whose total still fits under the
ceiling, the loop consumes everything and succeeds. -/
theorem readChunks_success (chunks : List (List Nat)) :
    ∀ buf : List Nat, (∀ c ∈ chunks, c ≠ []) →
      buf.length + (chunks.map List.length).sum ≤ MAX_FILE_SIZE →
      readChunks buf chunks = (none, buf ++ chunks.flatten, []) := by
  induction chunks with
  | nil => intro buf _ _; simp [readChunks]
  | cons chunk rest ih =>
    intro buf hne hlen
    have hemp : chunk.isEmpty = false := by
      cases chunk with
      | nil => exact absurd rfl (hne [] (List.mem_cons_self _ _))
      | cons a l => rfl
    simp only [List.map_cons, List.sum_cons] at hlen
    have hover : ¬ (buf ++ chunk).length > MAX_FILE_SIZE := by
      simp only [List.length_append]; omega
    simp only [readChunks, hemp, Bool.false_eq_true, if_false, if_neg hover]
    rw [ih (buf ++ chunk) (fun c hc => hne c (List.mem_cons_of_mem _ hc))
      (by simp only [List.length_append]; omega)]
    simp [List.append_assoc]

/-- On a stream of nonempty chunks whose total exceeds the ceiling, the
loop fails with the size-limit message. -/
theorem readChunks_overflow (chunks : List (List Nat)) :
    ∀ buf : List Nat, (∀ c ∈ chunks, c ≠ []) →
      buf.length ≤ MAX_FILE_SIZE →
      buf.length + (chunks.map List.length).sum > MAX_FILE_SIZE →
      ∃ buf' : List Nat, ∃ unread : List (List Nat),
        readChunks buf chunks = (some sizeLimitMsg, buf', unread) := by
  induction chunks with
  | nil =>
    intro buf _ hb hsum
    simp only [List.map_nil, List.sum_nil] at hsum
    omega
  | cons chunk rest ih =>
    intro buf hne hb hsum
    have hemp : chunk.isEmpty = false := by
      cases chunk with
      | nil => exact absurd rfl (hne [] (List.mem_cons_self _ _))
      | cons a l => rfl
    simp only [List.map_cons, List.sum_cons] at hsum
    by_cases hover : (buf ++ chunk).length > MAX_FILE_SIZE
    · exact ⟨buf ++ chunk, rest,
        by simp only [readChunks, hemp, Bool.false_eq_true, if_false, if_pos hover]⟩
    · have hb' : (buf ++ chunk).length ≤ MAX_FILE_SIZE := by omega
      have hstep : readChunks buf (chunk :: rest) = readChunks (buf ++ chunk) rest := by
        simp only [readChunks, hemp, Bool.false_eq_true, if_false, if_neg hover]
      rw [hstep]
      exact ih (buf ++ chunk) (fun c hc => hne c (List.mem_cons_of_mem _ hc)) hb'
        (by simp only [List.length_append]; omega)

/-- C4: with a logged-in user and a named file, a stream of (nonempty)
transport chunks totalling exactly 50 MiB is ingested and saved, while a
stream totalling at least one byte more fails with the size
`ValidationError`, whose message carries the configured limit, leaving the
database state — and hence the buffered content — unretained. -/
theorem upload_ceiling_boundary (st : DBState) (user_id : Nat) (item_type : String)
    (f : UploadStream)
    (hname : f.filename ≠ "")
    (hne : ∀ c ∈ f.chunks, c ≠ []) :
    ((f.chunks.map List.length).sum = MAX_FILE_SIZE →
      handle_upload st (some user_id) (some f) item_type =
        (save_item st user_id item_type f.chunks.flatten,
         .saved (uploadSavedMsg item_type f.filename))) ∧
    ((f.chunks.map List.length).sum ≥ MAX_FILE_SIZE + 1 →
      handle_upload st (some user_id) (some f) item_type =
        (st, .validationError sizeLimitMsg) ∧
      ∃ pre post : String,
        sizeLimitMsg = pre ++ toString (MAX_FILE_SIZE / 1024 / 1024) ++ post) := by
  have hnb : (f.filename == "") = false := by simp [hname]
  constructor
  · intro htot
    have h := readChunks_success f.chunks [] hne (by simp [htot])
    simp only [handle_upload, hnb, Bool.false_eq_true, if_false, h, List.nil_append]
  · intro htot
    obtain ⟨buf', unread, h⟩ :=
      readChunks_overflow f.chunks [] hne (by simp) (by simpa using htot)
    refine ⟨?_, "File exceeds the ", "MB size limit.", by decide⟩
    simp only [handle_upload, hnb, Bool.false_eq_true, if_false, h]

/-- Closed witness for C4: a single nonempty 50 MiB chunk, showing in
particular that the exact-ceiling premise is satisfiable. -/
theorem upload_ceiling_boundary_witness :
    ((⟨"f.bin", [List.replicate MAX_FILE_SIZE 0]⟩ : UploadStream).filename ≠ "" ∧
      (∀ c ∈ (⟨"f.bin", [List.replicate MAX_FILE_SIZE 0]⟩ : UploadStream).chunks, c ≠ []) ∧
      (((⟨"f.bin", [List.replicate MAX_FILE_SIZE 0]⟩ : UploadStream).chunks.map
          List.length).sum = MAX_FILE_SIZE) ∧
    (((⟨"f.bin", [List.replicate MAX_FILE_SIZE 0]⟩ : UploadStream).chunks.map
          List.length).sum = MAX_FILE_SIZE →
      handle_upload initialState (some 1) (some ⟨"f.bin", [List.replicate MAX_FILE_SIZE 0]⟩) "image" =
        (save_item initialState 1 "image"
          (⟨"f.bin", [List.replicate MAX_FILE_SIZE 0]⟩ : UploadStream).chunks.flatten,
         .saved (uploadSavedMsg "image"
           (⟨"f.bin", [List.replicate MAX_FILE_SIZE 0]⟩ : UploadStream).filename))) ∧
    (((⟨"f.bin", [List.replicate MAX_FILE_SIZE 0]⟩ : UploadStream).chunks.map
          List.length).sum ≥ MAX_FILE_SIZE + 1 →
      handle_upload initialState (some 1) (some ⟨"f.bin", [List.replicate MAX_FILE_SIZE 0]⟩) "image" =
        (initialState, .validationError sizeLimitMsg) ∧
      ∃ pre post : String,
        sizeLimitMsg = pre ++ toString (MAX_FILE_SIZE / 1024 / 1024) ++ post)) := by
  have hne : ∀ c ∈ (⟨"f.bin", [List.replicate MAX_FILE_SIZE 0]⟩ : UploadStream).chunks, c ≠ [] := by
    intro c hc
    simp only [List.mem_singleton] at hc
    subst hc
    exact List.ne_nil_of_length_pos (by rw [List.length_replicate]; norm_num [MAX_FILE_SIZE])
  have htot : (((⟨"f.bin", [List.replicate MAX_FILE_SIZE 0]⟩ : UploadStream).chunks.map
      List.length).sum = MAX_FILE_SIZE) := by
    simp [List.length_replicate]
  obtain ⟨h1, h2⟩ := upload_ceiling_boundary initialState 1 "image"
    ⟨"f.bin", [List.replicate MAX_FILE_SIZE 0]⟩ (by decide) hne
  exact ⟨by decide, hne, htot, h1, h2⟩

/-! ### UTF-8 round-trip -/

theorem decAux_lead_low {b : Nat} (bs : List Nat) (h : b < 128) :
    pyUtf8DecodeAux none (b :: bs) = (pyUtf8DecodeAux none bs).map (b :: ·) := by
  simp only [pyUtf8DecodeAux, if_pos h]

theorem decAux_lead2 {b : Nat} (bs : List Nat) (h1 : ¬ b < 128) (h2 : b < 224) :
    pyUtf8DecodeAux none (b :: bs) = pyUtf8DecodeAux (some (1, b - 192)) bs := by
  simp only [pyUtf8DecodeAux, if_neg h1, if_pos h2]

theorem decAux_lead3 {b : Nat} (bs : List Nat) (h1 : ¬ b < 128) (h2 : ¬ b < 224)
    (h3 : b < 240) :
    pyUtf8DecodeAux none (b :: bs) = pyUtf8DecodeAux (some (2, b - 224)) bs := by
  simp only [pyUtf8DecodeAux, if_neg h1, if_neg h2, if_pos h3]

theorem decAux_lead4 {b : Nat} (bs : List Nat) (h1 : ¬ b < 128) (h2 : ¬ b < 224)
    (h3 : ¬ b < 240) :
    pyUtf8DecodeAux none (b :: bs) = pyUtf8DecodeAux (some (3, b - 240)) bs := by
  simp only [pyUtf8DecodeAux, if_neg h1, if_neg h2, if_neg h3]

theorem decAux_cont {need acc b : Nat} (bs : List Nat) (h : ¬ need ≤ 1) :
    pyUtf8DecodeAux (some (need, acc)) (b :: bs) =
      pyUtf8DecodeAux (some (need - 1, acc * 64 + (b - 128))) bs := by
  simp only [pyUtf8DecodeAux, if_neg h]

theorem decAux_fin {need acc b : Nat} (bs : List Nat) (h : need ≤ 1) :
    pyUtf8DecodeAux (some (need, acc)) (b :: bs) =
      (pyUtf8DecodeAux none bs).map ((acc * 64 + (b - 128)) :: ·) := by
  simp only [pyUtf8DecodeAux, if_pos h]

/-- Decoding inverts the per-character encoder for any valid code point. -/
theorem pyUtf8Decode_encodeChar (v : Nat) (hv : v < 1114112) (rest : List Nat) :
    pyUtf8Decode (pyUtf8EncodeChar v ++ rest) =
      (pyUtf8Decode rest).map (v :: ·) := by
  by_cases h1 : v < 128
  · rw [pyUtf8EncodeChar, if_pos h1]
    simp only [pyUtf8Decode, List.cons_append, List.nil_append]
    rw [decAux_lead_low rest h1]
  · by_cases h2 : v < 2048
    · have e1 : ¬ (192 + v / 64 < 128) := by omega
      have e2 : 192 + v / 64 < 224 := by omega
      rw [pyUtf8EncodeChar, if_neg h1, if_pos h2]
      simp only [pyUtf8Decode, List.cons_append, List.nil_append]
      rw [decAux_lead2 _ e1 e2, decAux_fin _ (by norm_num)]
      rw [show (192 + v / 64 - 192) * 64 + (128 + v % 64 - 128) = v from by omega]
    · by_cases h3 : v < 65536
      · have e1 : ¬ (224 + v / 4096 < 128) := by omega
        have e2 : ¬ (224 + v / 4096 < 224) := by omega
        have e3 : 224 + v / 4096 < 240 := by omega
        rw [pyUtf8EncodeChar, if_neg h1, if_neg h2, if_pos h3]
        simp only [pyUtf8Decode, List.cons_append, List.nil_append]
        rw [decAux_lead3 _ e1 e2 e3, decAux_cont _ (by norm_num),
          decAux_fin _ (by norm_num)]
        rw [show ((224 + v / 4096 - 224) * 64 + (128 + v / 64 % 64 - 128)) * 64 +
          (128 + v % 64 - 128) = v from by omega]
      · have e1 : ¬ (240 + v / 262144 < 128) := by omega
        have e2 : ¬ (240 + v / 262144 < 224) := by omega
        have e3 : ¬ (240 + v / 262144 < 240) := by omega
        rw [pyUtf8EncodeChar, if_neg h1, if_neg h2, if_neg h3]
        simp only [pyUtf8Decode, List.cons_append, List.nil_append]
        rw [decAux_lead4 _ e1 e2 e3, decAux_cont _ (by norm_num),
          decAux_cont _ (by norm_num), decAux_fin _ (by norm_num)]
        rw [show (((240 + v / 262144 - 240) * 64 + (128 + v / 4096 % 64 - 128)) * 64 +
          (128 + v / 64 % 64 - 128)) * 64 + (128 + v % 64 - 128) = v from by omega]

theorem char_toNat_lt (c : Char) : c.toNat < 1114112 := by
  have h : c.val.toNat.isValidChar := c.valid
  rcases h with h | h
  · show c.val.toNat < 1114112
    omega
  · exact h.2

/-- Decoding the UTF-8 encoding of a string recovers its code points. -/
theorem pyUtf8_roundtrip (s : String) :
    pyUtf8Decode (pyUtf8Encode s) = some (s.data.map Char.toNat) := by
  suffices h : ∀ cs : List Char,
      pyUtf8Decode ((cs.map fun c => pyUtf8EncodeChar c.toNat).flatten) =
        some (cs.map Char.toNat) from h s.data
  intro cs
  induction cs with
  | nil => rfl
  | cons c rest ih =>
    rw [List.map_cons, List.flatten_cons,
      pyUtf8Decode_encodeChar c.toNat (char_toNat_lt c), ih]
    rfl

/-- The UTF-8 encoding is injective: the stored bytes determine the text. -/
theorem pyUtf8Encode_inj (s t : String) (h : pyUtf8Encode t = pyUtf8Encode s) :
    t = s := by
  have hs := pyUtf8_roundtrip s
  have ht := pyUtf8_roundtrip t
  rw [h, hs] at ht
  have hmaps : s.data.map Char.toNat = t.data.map Char.toNat := Option.some.inj ht
  have hinj : Function.Injective Char.toNat := fun a b hab =>
    Char.ext (UInt32.ext (by exact_mod_cast hab))
  cases s with
  | mk sdata =>
    cases t with
    | mk tdata =>
      have hd : sdata = tdata := List.map_injective_iff.2 hinj hmaps
      rw [hd]

/-! ### Blank-note detection -/

theorem string_mk_eq_empty_iff (l : List Char) : (String.mk l = "") ↔ l = [] := by
  constructor
  · intro h
    have := congrArg String.data h
    simpa using this
  · intro h
    rw [h]

/-- Python's `not content.strip()` is exactly "every character is
whitespace" (which subsumes the empty string). -/
theorem pyStrip_eq_empty_iff (s : String) :
    pyStrip s = "" ↔ ∀ c ∈ s.data, isPySpace c = true := by
  rw [pyStrip, string_mk_eq_empty_iff, List.reverse_eq_nil_iff,
    List.dropWhile_eq_nil_iff]
  constructor
  · intro h c hc
    rw [← List.takeWhile_append_dropWhile (p := isPySpace) (l := s.data)] at hc
    rcases List.mem_append.1 hc with h1 | h2
    · exact List.mem_takeWhile_imp h1
    · exact h c (List.mem_reverse.2 h2)
  · intro h x hx
    exact h x ((List.dropWhile_sublist isPySpace).subset (List.mem_reverse.1 hx))

/-- The guard of `add_note` fires exactly on blank content. -/
theorem add_note_cond_iff (content : String) :
    (content == "" || pyStrip content == "") = true ↔
      ∀ c ∈ content.data, isPySpace c = true := by
  rw [Bool.or_eq_true, beq_iff_eq, beq_iff_eq]
  constructor
  · rintro (rfl | h)
    · simp
    · exact (pyStrip_eq_empty_iff content).1 h
  · intro h
    exact Or.inr ((pyStrip_eq_empty_iff content).2 h)

/-- C7: a note save by a logged-in user fails with the validation error and
stores nothing when the submitted content is empty or whitespace-only;
otherwise it succeeds and the stored item's content is exactly the UTF-8
encoding of the text, which decodes back to the text's code points and
determines the text uniquely (byte-for-byte round-trip). -/
theorem add_note_blank_or_roundtrip (st : DBState) (user_id : Nat) (content : String) :
    ((∀ c ∈ content.data, isPySpace c = true) →
      add_note st (some user_id) content =
        (st, .validationError "Note content cannot be empty.")) ∧
    ((¬ ∀ c ∈ content.data, isPySpace c = true) →
      add_note st (some user_id) content =
        (save_item st user_id "note" (pyUtf8Encode content),
         .saved "Note saved successfully!") ∧
      (add_note st (some user_id) content).1.items =
        st.items ++ [⟨st.nextItemId, user_id, "note", pyUtf8Encode content⟩] ∧
      pyUtf8Decode (pyUtf8Encode content) = some (content.data.map Char.toNat) ∧
      ∀ t : String, pyUtf8Encode t = pyUtf8Encode content → t = content) := by
  constructor
  · intro h
    have hc : (content == "" || pyStrip content == "") = true :=
      (add_note_cond_iff content).2 h
    simp only [add_note, hc, if_true]
  · intro h
    have hc : (content == "" || pyStrip content == "") = false := by
      cases hcc : (content == "" || pyStrip content == "") with
      | false => rfl
      | true => exact absurd ((add_note_cond_iff content).1 hcc) h
    refine ⟨?_, ?_, pyUtf8_roundtrip content, fun t ht => pyUtf8Encode_inj content t ht⟩
    · simp only [add_note, hc, Bool.false_eq_true, if_false]
    · simp only [add_note, hc, Bool.false_eq_true, if_false, save_item]

/-- Closed witness for C7: a no-break-space-only note (U+00A0, blank for
Python's `strip`) hits the validation error with nothing stored, and a
non-blank note takes the save-and-round-trip branch. -/
theorem add_note_blank_or_roundtrip_witness :
    ((∀ c ∈ (String.mk [Char.ofNat 160]).data, isPySpace c = true) ∧
      add_note initialState (some 1) (String.mk [Char.ofNat 160]) =
        (initialState, .validationError "Note content cannot be empty.")) ∧
    (¬ ∀ c ∈ ("hi" : String).data, isPySpace c = true) ∧
    (add_note initialState (some 1) "hi" =
        (save_item initialState 1 "note" (pyUtf8Encode "hi"),
         .saved "Note saved successfully!") ∧
      (add_note initialState (some 1) "hi").1.items =
        initialState.items ++ [⟨initialState.nextItemId, 1, "note", pyUtf8Encode "hi"⟩] ∧
      pyUtf8Decode (pyUtf8Encode "hi") = some (("hi" : String).data.map Char.toNat) ∧
      ∀ t : String, pyUtf8Encode t = pyUtf8Encode "hi" → t = "hi") :=
  ⟨⟨by decide,
      (add_note_blank_or_roundtrip initialState 1 (String.mk [Char.ofNat 160])).1
        (by decide)⟩,
    by decide, (add_note_blank_or_roundtrip initialState 1 "hi").2 (by decide)⟩

/-- C9: whenever the note path or the upload path answers with a validation
error — blank note content, missing file or empty filename, or an
oversized stream — the returned database state is the input state
unchanged: the error is produced before any insert. -/
theorem validation_error_no_insert (st : DBState) (session_user : Option Nat)
    (content : String) (file : Option UploadStream) (item_type : String) :
    (∀ msg : String, (add_note st session_user content).2 = .validationError msg →
      (add_note st session_user content).1 = st) ∧
    (∀ msg : String,
      (handle_upload st session_user file item_type).2 = .validationError msg →
      (handle_upload st session_user file item_type).1 = st) := by
  constructor
  · intro msg h
    cases session_user with
    | none => rfl
    | some uid =>
      by_cases hc : (content == "" || pyStrip content == "") = true
      · simp only [add_note, hc, if_true]
      · have hc' : (content == "" || pyStrip content == "") = false :=
          Bool.not_eq_true _ ▸ hc
        simp [add_note, hc'] at h
  · intro msg h
    cases session_user with
    | none => rfl
    | some uid =>
      cases file with
      | none => rfl
      | some f =>
        by_cases hn : (f.filename == "") = true
        · simp only [handle_upload, hn, if_true]
        · have hn' : (f.filename == "") = false := Bool.not_eq_true _ ▸ hn
          cases hrc : readChunks [] f.chunks with
          | mk o rest =>
            cases o with
            | some m =>
              simp only [handle_upload, hn', Bool.false_eq_true, if_false, hrc]
            | none =>
              simp [handle_upload, hn', hrc] at h

/-- Closed witness for C9: a blank note and a missing file, both reporting
validation errors against an unchanged store. -/
theorem validation_error_no_insert_witness :
    ((add_note initialState (some 1) " ").2 =
        .validationError "Note content cannot be empty." ∧
      (handle_upload initialState (some 1) none "image").2 =
        .validationError "File not provided.") ∧
    ((∀ msg : String, (add_note initialState (some 1) " ").2 = .validationError msg →
        (add_note initialState (some 1) " ").1 = initialState) ∧
      ∀ msg : String,
        (handle_upload initialState (some 1) none "image").2 = .validationError msg →
        (handle_upload initialState (some 1) none "image").1 = initialState) :=
  ⟨⟨by decide, by decide⟩,
    validation_error_no_insert initialState (some 1) " " none "image"⟩

/-- C2: the spec expects `save(userId, type, content)` to fail with
`NotFoundError` when `userId` references no user; in the code the insert is
unguarded — `init_db` declares the `FOREIGN KEY` but the sqlite3 connection
never enables `PRAGMA foreign_keys`, so with an empty users table
`save_item` still inserts the row, leaving an orphaned item. -/
theorem save_item_no_user_check :
    initialState.users = [] ∧
    save_item initialState 1 "note" [104] =
      ⟨[], [⟨1, 1, "note", [104]⟩], 1, 2⟩ := by decide

/-! ### Environment parsing -/

theorem parseEnvStep_nocolon (acc : List (String × String)) (v : String)
    (h : v.data.contains ':' = false) : parseEnvStep acc (some v) = acc := by
  unfold parseEnvStep
  simp only
  rw [if_neg (by rw [h]; simp)]

theorem parseEnvStep_colon (acc : List (String × String)) (v : String)
    (h : v.data.contains ':' = true) :
    parseEnvStep acc (some v) =
      dictInsert (splitColon v).1 (splitColon v).2 acc := by
  unfold parseEnvStep
  simp only
  rw [if_pos h]

theorem parseEnvLoop_congr (env env' : Nat → Option String) :
    ∀ idxs : List Nat, ∀ acc : List (String × String),
      (∀ k ∈ idxs, ∀ a : List (String × String),
        parseEnvStep a (env k) = parseEnvStep a (env' k)) →
      parseEnvLoop env idxs acc = parseEnvLoop env' idxs acc := by
  intro idxs
  induction idxs with
  | nil => intro acc _; rfl
  | cons i rest ih =>
    intro acc h
    simp only [parseEnvLoop]
    rw [h i (List.mem_cons_self _ _) acc]
    exact ih _ fun k hk a => h k (List.mem_cons_of_mem _ hk) a

theorem dictInsert_not_declares {d : List (String × String)} {key u : String}
    (value : String) (hk : key ≠ u) (hd : declaresName d u = false) :
    declaresName (dictInsert key value d) u = false := by
  unfold dictInsert
  by_cases h : d.any (fun kv => kv.1 == key) = true
  · rw [if_pos h]
    refine declaresName_eq_false_iff.2 fun kv hkv => ?_
    obtain ⟨kv0, hkv0, rfl⟩ := List.mem_map.1 hkv
    show (if kv0.1 == key then (key, value) else kv0).1 ≠ u
    by_cases h0 : kv0.1 = key
    · rw [if_pos (by simpa using h0)]
      exact hk
    · rw [if_neg (by simpa using h0)]
      exact declaresName_eq_false_iff.1 hd kv0 hkv0
  · rw [if_neg h]
    refine declaresName_eq_false_iff.2 fun kv hkv => ?_
    rcases List.mem_append.1 hkv with h1 | h2
    · exact declaresName_eq_false_iff.1 hd kv h1
    · simp only [List.mem_singleton] at h2
      rw [h2]
      exact hk

theorem parseEnvLoop_not_declares (env : Nat → Option String) (u : String) :
    ∀ idxs : List Nat, ∀ acc : List (String × String),
      (∀ i ∈ idxs, ∀ v : String, env i = some v →
        v.data.contains ':' = true → (splitColon v).1 ≠ u) →
      declaresName acc u = false →
      declaresName (parseEnvLoop env idxs acc) u = false := by
  intro idxs
  induction idxs with
  | nil => intro acc _ hacc; exact hacc
  | cons i rest ih =>
    intro acc h hacc
    simp only [parseEnvLoop]
    refine ih _ (fun k hk v hv hcol => h k (List.mem_cons_of_mem _ hk) v hv hcol) ?_
    cases henv : env i with
    | none => exact hacc
    | some v =>
      by_cases hcol : v.data.contains ':' = true
      · rw [parseEnvStep_colon acc v hcol]
        exact dictInsert_not_declares _ (h i (List.mem_cons_self _ _) v henv hcol) hacc
      · rw [parseEnvStep_nocolon acc v (Bool.not_eq_true _ ▸ hcol)]
        exact hacc

/-- C10: a `USER_i` entry (1 ≤ i ≤ 10) that is unset or whose value has no
colon contributes no declared user — erasing it leaves the parsed declared
map unchanged — and a persisted user whose username no entry declares
(every entry being unset, colon-free, or splitting to another username) is
treated as absent and has no row left after `load_users_from_env`. -/
theorem env_entry_requires_colon (env : Nat → Option String) (i : Nat)
    (st : DBState) (u : String)
    (hi1 : 1 ≤ i) (hi2 : i ≤ 10)
    (hfree : env i = none ∨
      ∃ v : String, env i = some v ∧ v.data.contains ':' = false)
    (_hpresent : hasUsername st.users u = true)
    (hnodecl : ∀ k : Nat, 1 ≤ k → k ≤ 10 → ∀ v : String, env k = some v →
      v.data.contains ':' = true → (splitColon v).1 ≠ u) :
    parseEnvUsers env = parseEnvUsers (fun j => if j = i then none else env j) ∧
    usersWith (load_users_from_env env st).1.users u = [] := by
  constructor
  · refine parseEnvLoop_congr _ _ _ [] fun k _ a => ?_
    by_cases hki : k = i
    · subst hki
      rcases hfree with hn | ⟨v, hv, hcol⟩
      · rw [hn, if_pos rfl]
      · rw [hv, if_pos rfl, parseEnvStep_nocolon a v hcol]
        rfl
    · rw [if_neg hki]
  · have hd : declaresName (parseEnvUsers env) u = false := by
      refine parseEnvLoop_not_declares env u _ [] (fun k hk v hv hcol => ?_) rfl
      have hb : 1 ≤ k ∧ k ≤ 10 := by
        simp only [List.mem_map, List.mem_range] at hk
        obtain ⟨a, ha, rfl⟩ := hk
        omega
      exact hnodecl k hb.1 hb.2 v hv hcol
    show usersWith (reconcile (parseEnvUsers env) st).1.users u = []
    exact reconcile_usersWith_absent _ st u hd

/-- Closed witness for C10: `USER_1 = "alice"` (no colon) and a persisted
`alice`, who ends up deleted. -/
theorem env_entry_requires_colon_witness :
    (1 ≤ 1 ∧ (1 : Nat) ≤ 10 ∧
      ((fun j => if j = 1 then some "alice" else none) 1 = none ∨
        ∃ v : String, (fun j => if j = 1 then some "alice" else none) 1 = some v ∧
          v.data.contains ':' = false) ∧
      hasUsername (⟨[⟨1, "alice", "h"⟩], [], 2, 1⟩ : DBState).users "alice" = true ∧
      (∀ k : Nat, 1 ≤ k → k ≤ 10 → ∀ v : String,
        (fun j => if j = 1 then some "alice" else none) k = some v →
        v.data.contains ':' = true → (splitColon v).1 ≠ "alice")) ∧
    (parseEnvUsers (fun j => if j = 1 then some "alice" else none) =
        parseEnvUsers (fun j => if j = 1 then none
          else (fun j => if j = 1 then some "alice" else none) j) ∧
      usersWith (load_users_from_env (fun j => if j = 1 then some "alice" else none)
        (⟨[⟨1, "alice", "h"⟩], [], 2, 1⟩ : DBState)).1.users "alice" = []) := by
  have hnodecl : ∀ k : Nat, 1 ≤ k → k ≤ 10 → ∀ v : String,
      (fun j => if j = 1 then some "alice" else none) k = some v →
      v.data.contains ':' = true → (splitColon v).1 ≠ "alice" := by
    intro k _ _ v hv hcol
    have hv' : (if k = 1 then some "alice" else none) = some v := hv
    by_cases hk : k = 1
    · rw [if_pos hk] at hv'
      obtain rfl : "alice" = v := Option.some.inj hv'
      exact absurd hcol (by decide)
    · rw [if_neg hk] at hv'
      cases hv'
  exact ⟨⟨by decide, by decide, Or.inr ⟨"alice", rfl, by decide⟩, by decide, hnodecl⟩,
    env_entry_requires_colon _ 1 _ "alice" (by decide) (by decide)
      (Or.inr ⟨"alice", rfl, by decide⟩) (by decide) hnodecl⟩
